import Mathlib

/-!
Shallow embedding of the OpenCode backend adapter (`src/opencode/OpenCodeBackend.ts`)
and transport client (`OpenCodeClient`, in the same module as the display component).

JavaScript runtime values are modelled by `JsValue`; records (`Record<string, unknown>`)
by association lists with first-occurrence lookup; JS truthiness and `||` by `JsValue.truthy`
and `jsOr`.  External platform primitives (`JSON.parse`, `crypto.randomUUID`, wall-clock
timers) are passed in as explicit parameters/oracles, never re-implemented.
-/

namespace OpenCode

/-- A JavaScript runtime value, as far as the adapter inspects one. -/
inductive JsValue where
  | undef
  | null
  | str (s : String)
  | num (n : Int)
  | bool (b : Bool)
  | obj (fields : List (String × JsValue))

/-- JS truthiness: `undefined`, `null`, `""`, `0`, `false` are falsy; objects are truthy. -/
def JsValue.truthy : JsValue → Bool
  | .undef => false
  | .null => false
  | .str s => s ≠ ""
  | .num n => n ≠ 0
  | .bool b => b
  | .obj _ => true

/-- The JS `a || b` operator: `a` when truthy, otherwise `b`. -/
def jsOr (a b : JsValue) : JsValue := if a.truthy then a else b

/-- An untyped JS record (`Record<string, unknown>`): an association list,
property access reads the first occurrence of the key. -/
abbrev Record := List (String × JsValue)

/-- Property access `data.k`: `undefined` when the key is absent. -/
def getField : Record → String → JsValue
  | [], _ => .undef
  | (k1, v) :: rest, k => if k1 = k then v else getField rest k

/-- The status values an adapter `status` message can carry. -/
inductive StatusKind where
  | running
  | idle
  | error
  | stopped
  deriving DecidableEq

/-- The canonical `AgentMessage` vocabulary the adapter emits
(`src/agent/core` message shapes, as constructed in `OpenCodeBackend`). -/
inductive AgentMessage where
  | status (status : StatusKind) (detail : Option JsValue)
  | modelOutput (textDelta : JsValue)
  | toolCall (toolName : JsValue) (args : JsValue) (callId : JsValue)
  | toolResult (toolName : JsValue) (result : JsValue) (callId : JsValue)
  | fsEdit (description : JsValue) (diff : JsValue) (path : JsValue)
  | terminalOutput (data : JsValue)
  | permissionRequest (id : JsValue) (reason : JsValue) (payload : JsValue)
  | permissionResponse (id : JsValue) (approved : Bool)

/-- The variant (constructor) of a canonical message, without its fields. -/
inductive MsgKind where
  | status
  | modelOutput
  | toolCall
  | toolResult
  | fsEdit
  | terminalOutput
  | permissionRequest
  | permissionResponse
  deriving DecidableEq

/-- The canonical variant a message belongs to. -/
def kindOf : AgentMessage → MsgKind
  | .status _ _ => .status
  | .modelOutput _ => .modelOutput
  | .toolCall _ _ _ => .toolCall
  | .toolResult _ _ _ => .toolResult
  | .fsEdit _ _ _ => .fsEdit
  | .terminalOutput _ => .terminalOutput
  | .permissionRequest _ _ _ => .permissionRequest
  | .permissionResponse _ _ => .permissionResponse

/-- The `type` discriminator read by `processOpenCodeData`
(`const eventType = data.type as string`): the JS `switch` on string
literals matches only when `data.type` is that exact string, so a
non-string discriminator falls to the `default` branch (`none` here). -/
def typeTag (data : Record) : Option String :=
  match getField data "type" with
  | .str s => some s
  | _ => none

/-- Embeds `OpenCodeBackend.processOpenCodeData` (lines 131-214): maps one raw record
to at most one canonical message.  `freshId` is the oracle for the
`crypto.randomUUID()` calls in the `tool_call` and `permission_request`
branches (a platform primitive; at most one draw happens per call). -/
def processOpenCodeData (freshId : String) (data : Record) : Option AgentMessage :=
  let t := typeTag data
  if t = some "text" ∨ t = some "token" ∨ t = some "content" then
    some (.modelOutput
      (jsOr (getField data "content") (jsOr (getField data "text") (getField data "delta"))))
  else if t = some "tool_call" ∨ t = some "tool-call" then
    some (.toolCall
      (jsOr (getField data "name") (jsOr (getField data "toolName") (.str "unknown")))
      (jsOr (getField data "arguments") (jsOr (getField data "args") (.obj [])))
      (jsOr (getField data "id") (jsOr (getField data "callId") (.str freshId))))
  else if t = some "tool_result" ∨ t = some "tool-result" then
    some (.toolResult
      (jsOr (getField data "name") (jsOr (getField data "toolName") (.str "unknown")))
      (jsOr (getField data "result") (getField data "output"))
      (jsOr (getField data "id") (jsOr (getField data "callId") (.str ""))))
  else if t = some "file_edit" ∨ t = some "fs-edit" then
    some (.fsEdit
      (jsOr (getField data "description") (jsOr (getField data "summary") (.str "")))
      (getField data "diff")
      (getField data "path"))
  else if t = some "terminal" ∨ t = some "terminal-output" then
    some (.terminalOutput
      (jsOr (getField data "output") (jsOr (getField data "data") (.str ""))))
  else if t = some "permission_request" ∨ t = some "permission-request" then
    some (.permissionRequest
      (jsOr (getField data "id") (.str freshId))
      (jsOr (getField data "reason") (jsOr (getField data "message") (.str "")))
      (jsOr (getField data "payload") (.obj data)))
  else if t = some "error" then
    some (.status .error
      (some (jsOr (getField data "message") (jsOr (getField data "error") (.str "Unknown error")))))
  else if t = some "done" ∨ t = some "complete" ∨ t = some "finished" then
    some (.status .idle none)
  else
    if (jsOr (getField data "text") (getField data "content")).truthy then
      some (.modelOutput (jsOr (getField data "text") (getField data "content")))
    else
      none

/-- JS `s.trim()` truthiness: the trimmed string is non-empty, i.e. `s` has at
least one non-whitespace character. -/
def strNonBlank (s : String) : Bool := s.data.any fun c => !c.isWhitespace

/-- Embeds `OpenCodeBackend.handleStreamChunk` (lines 113-122).  `parsed` is the
outcome of the platform primitive `JSON.parse(chunk)`: `some data` on
success, `none` when parsing throws.  The catch-branch emits the raw
chunk as a `model-output` only when `chunk.trim()` is non-empty.
The function is total: no error escapes to the caller. -/
def handleStreamChunk (freshId : String) (parsed : Option Record) (chunk : String) :
    List AgentMessage :=
  match parsed with
  | some data => (processOpenCodeData freshId data).toList
  | none => if strNonBlank chunk then [.modelOutput (.str chunk)] else []

/-- JS strict inequality `sid !== currentSessionId`, where `currentSessionId`
has TS type `string | null` (`none` models `null`). -/
def sessionMismatch (sid : JsValue) (currentSessionId : Option String) : Bool :=
  match currentSessionId, sid with
  | some s, .str s2 => s2 ≠ s
  | some _, _ => true
  | none, .null => false
  | none, _ => true

/-- Embeds `OpenCodeBackend.handleOpenCodeEvent` (lines 124-129): drops the event when
`event.sessionId` is truthy and strictly different from the current session id;
otherwise hands it to `processOpenCodeData`.  Returns the messages emitted. -/
def handleOpenCodeEvent (freshId : String) (currentSessionId : Option String)
    (event : Record) : List AgentMessage :=
  if (getField event "sessionId").truthy
      && sessionMismatch (getField event "sessionId") currentSessionId then
    []
  else
    (processOpenCodeData freshId event).toList

/-- One chunk delivered by the transport's `onChunk` callback during a
`sendPrompt`, together with the outcomes of the platform primitives consumed
while handling it: `parsed` is `JSON.parse(raw)`'s outcome, `freshId` the
`crypto.randomUUID()` draw (used only when the dispatch needs a fallback id). -/
structure StreamChunk where
  raw : String
  parsed : Option Record
  freshId : String

/-- Messages emitted during `OpenCodeBackend.startSession` (lines 32-47) when no
initial prompt is supplied: exactly one `status(running)`. -/
def startSessionEmits : List AgentMessage :=
  [.status .running none]

/-- Messages emitted during one `OpenCodeBackend.sendPrompt` call (lines 49-68),
given the chunks the transport delivers to `handleStreamChunk`:
`status(running)`, then every message produced per chunk in order, then
`status(idle)` when the stream completes. -/
def sendPromptEmits (chunks : List StreamChunk) : List AgentMessage :=
  .status .running none ::
    ((chunks.flatMap fun c => handleStreamChunk c.freshId c.parsed c.raw) ++
      [.status .idle none])

/-- Discrete-time model of the `responseComplete` promise field:
`none` — no promise was ever created (fresh adapter);
`some (some t)` — a promise exists and resolves `t` ms after
`waitForResponseComplete` starts observing it (`t = 0`: already resolved);
`some none` — a promise exists and never resolves. -/
abbrev PendingState := Option (Option Nat)

/-- After `sendPrompt` returns, `responseComplete` holds an already-resolved
promise (`sendPrompt` resolves it just before returning and never nulls it). -/
def pendingAfterSend : PendingState := some (some 0)

/-- Observable outcome of `waitForResponseComplete`. -/
inductive WaitOutcome where
  | noPending
  | completed
  | timeoutError
  deriving DecidableEq

/-- Default `timeoutMs` of `waitForResponseComplete`. -/
def defaultTimeoutMs : Nat := 120000

/-- Embeds `OpenCodeBackend.waitForResponseComplete` (lines 87-95), with the
`Promise.race` against `setTimeout` modelled in discrete time: returns
immediately when no promise exists; wins the race when the promise resolves
before `timeoutMs`; otherwise the timer fires and the call rejects with the
timeout error.  The second component is the `responseComplete` field after
the call: the method never mutates it (the losing racer is abandoned, the
underlying operation is not cancelled). -/
def waitForResponseComplete (responseComplete : PendingState) (timeoutMs : Nat) :
    WaitOutcome × PendingState :=
  match responseComplete with
  | none => (.noPending, none)
  | some (some t) =>
      if t < timeoutMs then (.completed, some (some t)) else (.timeoutError, some (some t))
  | some none => (.timeoutError, some none)

/-- The adapter state touched by `dispose` (fields of `OpenCodeBackend`):
whether the push-event unsubscribe handle is held, whether the client's
push connection is open, and the registered message handlers (as ids, in
registration order). -/
structure BackendState where
  eventUnsubscribe : Bool
  clientConnected : Bool
  handlers : List Nat

/-- One `emit` call: the message together with the handlers it is delivered
to — exactly the handlers registered at the moment of the call. -/
structure Emission where
  msg : AgentMessage
  recipients : List Nat

/-- Embeds `OpenCodeBackend.dispose` (lines 97-105): drops the unsubscribe handle,
disconnects the client, clears `messageHandlers`, and only then calls
`emit({type: 'status', status: 'stopped'})`.  Returns the new state and the
emissions performed (with their actual recipients). -/
def dispose (s : BackendState) : BackendState × List Emission :=
  let s1 : BackendState := { s with eventUnsubscribe := false }
  let s2 : BackendState := { s1 with clientConnected := false }
  let s3 : BackendState := { s2 with handlers := [] }
  (s3, [{ msg := .status .stopped none, recipients := s3.handlers }])

/-- A line (or the stream buffer) as the character list of a JS string. -/
abbrev JsStr := List Char

/-- One character of splitting on `'\n'`: a newline closes the current part,
any other character extends it. -/
def splitStep (acc : List JsStr × JsStr) (c : Char) : List JsStr × JsStr :=
  if c = '\n' then (acc.1 ++ [acc.2], []) else (acc.1, acc.2 ++ [c])

/-- JS `s.split('\n')` followed by `pop()`: the complete newline-terminated
parts in order, and the popped trailing part after the last newline
(empty after a trailing newline).  `s.split('\n')` itself is
`parts.1 ++ [parts.2]`. -/
def jsSplitNl (s : JsStr) : List JsStr × JsStr := s.foldl splitStep ([], [])

/-- JS `line.trim()` truthiness: the line has at least one non-whitespace
character. -/
def nonBlank (l : JsStr) : Bool := l.any fun c => !c.isWhitespace

/-- Loop state of `OpenCodeClient.sendMessage`'s read loop: lines already
passed to `onChunk`, and the `buffer` variable (the trailing partial line). -/
structure SendLoopState where
  out : List JsStr
  buffer : JsStr

/-- One iteration of the read loop in `OpenCodeClient.sendMessage` (lines
238-251): append the decoded chunk to the buffer, split on `'\n'`, pop the
last part back into the buffer, and forward each complete part whose
`trim()` is non-empty. -/
def sendMessageStep (st : SendLoopState) (chunk : JsStr) : SendLoopState :=
  let parts := jsSplitNl (st.buffer ++ chunk)
  { out := st.out ++ parts.1.filter nonBlank
    buffer := parts.2 }

/-- Embeds `OpenCodeClient.sendMessage` (lines 209-256), restricted to its
line delivery: the lines handed to `onChunk`, in order, for a given sequence
of decoded chunks; after the stream ends the remaining buffer is flushed iff
its `trim()` is non-empty. -/
def sendMessageLines (chunks : List JsStr) : List JsStr :=
  let st := chunks.foldl sendMessageStep ⟨[], []⟩
  if nonBlank st.buffer then st.out ++ [st.buffer] else st.out

/-- Modelled from the spec: the delivery the spec claims for `sendMessage` —
`onLine` once per complete newline-terminated line of the whole stream, in
order, plus the trailing partial line iff it is non-empty. -/
def sendMessageLinesClaimed (chunks : List JsStr) : List JsStr :=
  let parts := jsSplitNl chunks.flatten
  parts.1 ++ (if parts.2 ≠ [] then [parts.2] else [])

/-- Modelled from the spec: the "first present wins" aliasing the spec claims
for the text family — `content` whenever the field is present (even falsy),
else `text` when present, else `delta`. -/
def textDeltaFirstPresent (r : Record) : JsValue :=
  match getField r "content" with
  | .undef =>
    match getField r "text" with
    | .undef => getField r "delta"
    | v => v
  | v => v

/-! ### Helper lemmas about the newline splitter -/

theorem foldl_splitStep_shift (s : JsStr) :
    ∀ p : List JsStr × JsStr,
      s.foldl splitStep p =
        (p.1 ++ (s.foldl splitStep ([], p.2)).1, (s.foldl splitStep ([], p.2)).2) := by
  induction s with
  | nil => intro p; simp
  | cons c cs ih =>
    intro p
    obtain ⟨done, cur⟩ := p
    simp only [List.foldl_cons, splitStep]
    by_cases hc : c = '\n'
    · rw [if_pos hc, if_pos hc]
      simp only [List.nil_append]
      rw [ih (done ++ [cur], []), ih ([cur], [])]
      simp [List.append_assoc]
    · rw [if_neg hc, if_neg hc]
      exact ih (done, cur ++ [c])

theorem foldl_splitStep_no_nl (s : JsStr) (h : '\n' ∉ s) :
    ∀ (done : List JsStr) (cur : JsStr),
      s.foldl splitStep (done, cur) = (done, cur ++ s) := by
  induction s with
  | nil => intro done cur; simp
  | cons c cs ih =>
    intro done cur
    have hc : c ≠ '\n' := fun hcc => h (hcc ▸ List.mem_cons_self c cs)
    have hcs : '\n' ∉ cs := fun hm => h (List.mem_cons_of_mem _ hm)
    simp only [List.foldl_cons, splitStep]
    rw [if_neg hc, ih hcs]
    simp

theorem foldl_splitStep_snd_no_nl (s : JsStr) :
    ∀ (done : List JsStr) (cur : JsStr), '\n' ∉ cur →
      '\n' ∉ (s.foldl splitStep (done, cur)).2 := by
  induction s with
  | nil => intro done cur h; simpa using h
  | cons c cs ih =>
    intro done cur h
    simp only [List.foldl_cons, splitStep]
    by_cases hc : c = '\n'
    · rw [if_pos hc]
      exact ih _ _ (by simp)
    · rw [if_neg hc]
      refine ih _ _ fun hm => ?_
      rcases List.mem_append.1 hm with h1 | h2
      · exact h h1
      · have hnc : '\n' = c := by simpa using h2
        exact hc hnc.symm

theorem jsSplitNl_snd_no_nl (s : JsStr) : '\n' ∉ (jsSplitNl s).2 := by
  exact foldl_splitStep_snd_no_nl s [] [] (by simp)

theorem jsSplitNl_no_nl (s : JsStr) (h : '\n' ∉ s) : jsSplitNl s = ([], s) := by
  unfold jsSplitNl
  rw [foldl_splitStep_no_nl s h]
  simp

theorem jsSplitNl_append (a b : JsStr) :
    jsSplitNl (a ++ b) =
      ((jsSplitNl a).1 ++ (jsSplitNl ((jsSplitNl a).2 ++ b)).1,
        (jsSplitNl ((jsSplitNl a).2 ++ b)).2) := by
  have h2 : ((jsSplitNl a).2).foldl splitStep ([], []) = ([], (jsSplitNl a).2) := by
    rw [foldl_splitStep_no_nl _ (jsSplitNl_snd_no_nl a)]
    simp
  simp only [jsSplitNl] at h2 ⊢
  rw [List.foldl_append, foldl_splitStep_shift b, List.foldl_append, h2]

theorem foldl_sendMessageStep (chunks : List JsStr) :
    ∀ (out : List JsStr) (buf : JsStr), '\n' ∉ buf →
      chunks.foldl sendMessageStep ⟨out, buf⟩ =
        ⟨out ++ ((jsSplitNl (buf ++ chunks.flatten)).1.filter nonBlank),
          (jsSplitNl (buf ++ chunks.flatten)).2⟩ := by
  induction chunks with
  | nil =>
    intro out buf h
    simp [jsSplitNl_no_nl buf h]
  | cons c cs ih =>
    intro out buf h
    rw [List.foldl_cons]
    have hstep : sendMessageStep ⟨out, buf⟩ c =
        ⟨out ++ (jsSplitNl (buf ++ c)).1.filter nonBlank, (jsSplitNl (buf ++ c)).2⟩ := rfl
    rw [hstep,
      ih (out ++ (jsSplitNl (buf ++ c)).1.filter nonBlank) ((jsSplitNl (buf ++ c)).2)
        (jsSplitNl_snd_no_nl _),
      List.flatten_cons,
      show buf ++ (c ++ cs.flatten) = (buf ++ c) ++ cs.flatten from
        (List.append_assoc buf c cs.flatten).symm,
      jsSplitNl_append (buf ++ c) cs.flatten]
    simp [List.filter_append, List.append_assoc]

theorem sendMessageLines_eq (chunks : List JsStr) :
    sendMessageLines chunks =
      (jsSplitNl chunks.flatten).1.filter nonBlank ++
        (if nonBlank (jsSplitNl chunks.flatten).2
          then [(jsSplitNl chunks.flatten).2] else []) := by
  unfold sendMessageLines
  rw [foldl_sendMessageStep chunks [] [] (by simp)]
  by_cases hb : nonBlank (jsSplitNl chunks.flatten).2
  · simp [hb]
  · simp [hb]

/-! ### Helper lemmas about JS truthiness -/

theorem jsOr_fallback_eq (a b : JsValue) (u1 u2 : String)
    (h : a.truthy = true ∨ b.truthy = true) :
    jsOr a (jsOr b (.str u1)) = jsOr a (jsOr b (.str u2)) := by
  unfold jsOr
  rcases h with h | h
  · rw [if_pos h, if_pos h]
  · by_cases ha : a.truthy
    · rw [if_pos ha, if_pos ha]
    · rw [if_neg ha, if_neg ha, if_pos h, if_pos h]

theorem jsOr_fallback_eq1 (a : JsValue) (u1 u2 : String) (h : a.truthy = true) :
    jsOr a (.str u1) = jsOr a (.str u2) := by
  unfold jsOr
  rw [if_pos h, if_pos h]

/-! ### The claims -/

/-- C1, counterexample: in the specified send cycle (transport delivers the
lines for `{"type":"text","content":"Hi"}` then `{"type":"done"}`) the
listener does not observe only `status(running)`, `model-output{Hi}`,
`status(idle)`: the `done` line itself emits an extra `status(idle)`, so the
cycle contains four messages, not three. -/
theorem claim_C1_counterexample :
    sendPromptEmits
        [⟨"\x7b\"type\":\"text\",\"content\":\"Hi\"\x7d",
          some [("type", .str "text"), ("content", .str "Hi")], "u1"⟩,
         ⟨"\x7b\"type\":\"done\"\x7d", some [("type", .str "done")], "u2"⟩] =
      [.status .running none, .modelOutput (.str "Hi"), .status .idle none,
        .status .idle none] ∧
    ¬ (sendPromptEmits
        [⟨"\x7b\"type\":\"text\",\"content\":\"Hi\"\x7d",
          some [("type", .str "text"), ("content", .str "Hi")], "u1"⟩,
         ⟨"\x7b\"type\":\"done\"\x7d", some [("type", .str "done")], "u2"⟩] =
      [.status .running none, .modelOutput (.str "Hi"), .status .idle none]) := by
  have hval : sendPromptEmits
      [⟨"\x7b\"type\":\"text\",\"content\":\"Hi\"\x7d",
        some [("type", .str "text"), ("content", .str "Hi")], "u1"⟩,
       ⟨"\x7b\"type\":\"done\"\x7d", some [("type", .str "done")], "u2"⟩] =
      [.status .running none, .modelOutput (.str "Hi"), .status .idle none,
        .status .idle none] := rfl
  refine ⟨hval, fun hEq => ?_⟩
  rw [hval] at hEq
  simpa using congrArg List.length hEq

/-- C1, amended: `start()` emits `status(running)`; the send cycle with lines
`{"type":"text","content":"Hi"}` then `{"type":"done"}` makes the listener
observe, in order, `status(running)`, `model-output{textDelta:"Hi"}`,
`status(idle)` (from the `done` line) and a second `status(idle)` (stream
completion) — one more message than the claim states; afterwards
`waitForCompletion` resolves (the pending token is already resolved). -/
theorem claim_C1 :
    startSessionEmits ++
        sendPromptEmits
          [⟨"\x7b\"type\":\"text\",\"content\":\"Hi\"\x7d",
            some [("type", .str "text"), ("content", .str "Hi")], "u1"⟩,
           ⟨"\x7b\"type\":\"done\"\x7d", some [("type", .str "done")], "u2"⟩] =
      [.status .running none, .status .running none, .modelOutput (.str "Hi"),
        .status .idle none, .status .idle none] ∧
    (waitForResponseComplete pendingAfterSend defaultTimeoutMs).1 = .completed := by
  exact ⟨rfl, rfl⟩

/-- C2, counterexample: on the single chunk `"\nA\n"` the code delivers only
the line `A` — the first complete line (the empty one before the first
newline) is silently skipped, contradicting "exactly once per complete
newline-terminated line". -/
theorem claim_C2_counterexample :
    sendMessageLines ["\nA\n".toList] = [['A']] ∧
    sendMessageLinesClaimed ["\nA\n".toList] = [[], ['A']] ∧
    ¬ (sendMessageLines ["\nA\n".toList] = sendMessageLinesClaimed ["\nA\n".toList]) := by
  refine ⟨by decide, by decide, by decide⟩

/-- C2, amended: for every sequence of chunks, `onLine` is invoked exactly
once per complete newline-terminated line whose `trim()` is non-empty
(blank complete lines are skipped), in arrival order, with lines neither
reordered nor merged; the trailing partial line at stream end is flushed as
one final call iff it is non-blank (`trim()` non-empty), not merely
non-empty. -/
theorem claim_C2 (chunks : List JsStr) :
    sendMessageLines chunks =
      (jsSplitNl chunks.flatten).1.filter nonBlank ++
        (if nonBlank (jsSplitNl chunks.flatten).2
          then [(jsSplitNl chunks.flatten).2] else []) := by
  exact sendMessageLines_eq chunks

/-- C3: for every raw input record (here: arbitrary further fields `r` behind
the discriminator) and every recognized underscore/hyphen discriminator
family, both spellings normalize to the same canonical variant:
`tool_call`/`tool-call` to tool-call, `tool_result`/`tool-result` to
tool-result, `file_edit`/`fs-edit` to fs-edit, and
`permission_request`/`permission-request` to permission-request. -/
theorem claim_C3 (r : Record) (u : String) :
    ((processOpenCodeData u (("type", .str "tool_call") :: r)).map kindOf =
      (processOpenCodeData u (("type", .str "tool-call") :: r)).map kindOf) ∧
    ((processOpenCodeData u (("type", .str "tool_result") :: r)).map kindOf =
      (processOpenCodeData u (("type", .str "tool-result") :: r)).map kindOf) ∧
    ((processOpenCodeData u (("type", .str "file_edit") :: r)).map kindOf =
      (processOpenCodeData u (("type", .str "fs-edit") :: r)).map kindOf) ∧
    ((processOpenCodeData u (("type", .str "permission_request") :: r)).map kindOf =
      (processOpenCodeData u (("type", .str "permission-request") :: r)).map kindOf) := by
  refine ⟨rfl, rfl, rfl, rfl⟩

/-- C4, counterexample: for the record with `type:"text"`, `content:""`,
`text:"abc"` the code emits `textDelta = "abc"`, while first-present-wins
aliasing (as claimed, with an empty-string `content` still winning) would
give `textDelta = ""`: JS `||` skips the present-but-falsy `content`. -/
theorem claim_C4_counterexample :
    processOpenCodeData "u"
        [("type", .str "text"), ("content", .str ""), ("text", .str "abc")] =
      some (.modelOutput (.str "abc")) ∧
    textDeltaFirstPresent
        [("type", .str "text"), ("content", .str ""), ("text", .str "abc")] =
      .str "" ∧
    ¬ ((JsValue.str "abc") = .str "") := by
  refine ⟨rfl, rfl, by simp⟩

/-- C4, amended: for every record whose type is `text`, `token` or `content`,
the emitted `model-output`'s `textDelta` equals the first of `content`,
`text`, `delta` whose value is present and truthy (for strings: non-empty),
and otherwise the `delta` field's value; a present but falsy (e.g. empty
string) `content` does not win. -/
theorem claim_C4 (r : Record) (u : String)
    (h : typeTag r = some "text" ∨ typeTag r = some "token" ∨ typeTag r = some "content") :
    processOpenCodeData u r =
      some (.modelOutput
        (if (getField r "content").truthy then getField r "content"
          else if (getField r "text").truthy then getField r "text"
          else getField r "delta")) := by
  simp only [processOpenCodeData]
  rw [if_pos h]
  simp [jsOr]

/-- C4, witness: a `token` record carrying only `delta:"d"` emits
`textDelta = "d"`. -/
theorem claim_C4_witness :
    processOpenCodeData "u" [("type", JsValue.str "token"), ("delta", JsValue.str "d")] =
      some (.modelOutput (.str "d")) := by
  have h := claim_C4 [("type", JsValue.str "token"), ("delta", JsValue.str "d")] "u"
    (Or.inr (Or.inl rfl))
  simpa [getField, JsValue.truthy] using h

/-- C5: a stream line whose `JSON.parse` fails is emitted verbatim as exactly
one `model-output{textDelta: line}` when it is non-blank, and produces no
message when it is blank; `handleStreamChunk` is a total function, so no
error propagates to the caller in either case. -/
theorem claim_C5 (u chunk : String) :
    (strNonBlank chunk = true →
      handleStreamChunk u none chunk = [.modelOutput (.str chunk)]) ∧
    (strNonBlank chunk = false → handleStreamChunk u none chunk = []) := by
  constructor <;> intro h <;> simp [handleStreamChunk, h]

/-- C5, witness: the non-JSON line `not json` is passed through verbatim; the
blank line of two spaces is dropped. -/
theorem claim_C5_witness :
    handleStreamChunk "u" none "not json" = [.modelOutput (.str "not json")] ∧
    handleStreamChunk "u" none "  " = [] := by
  exact ⟨(claim_C5 "u" "not json").1 (by decide), (claim_C5 "u" "  ").2 (by decide)⟩

/-- C6, counterexample: with current session `abc`, a push event whose
`sessionId` is the empty string differs from the current handle, yet it is
forwarded and emits `model-output{x}` — the filter `event.sessionId &&
event.sessionId !== this.currentSessionId` lets every falsy `sessionId`
through. -/
theorem claim_C6_counterexample :
    getField [("sessionId", JsValue.str ""), ("type", JsValue.str "text"),
        ("content", JsValue.str "x")] "sessionId" = .str "" ∧
    ¬ (("" : String) = "abc") ∧
    ¬ (handleOpenCodeEvent "u" (some "abc")
        [("sessionId", JsValue.str ""), ("type", JsValue.str "text"),
          ("content", JsValue.str "x")] = []) := by
  refine ⟨rfl, by decide, fun hEq => ?_⟩
  have hval : handleOpenCodeEvent "u" (some "abc")
      [("sessionId", JsValue.str ""), ("type", JsValue.str "text"),
        ("content", JsValue.str "x")] = [.modelOutput (.str "x")] := rfl
  rw [hval] at hEq
  simpa using congrArg List.length hEq

/-- C6, amended: a push event is never forwarded when its `sessionId` is
truthy (a non-empty string) and strictly different from the adapter's
current session handle; events with an absent, null or empty `sessionId`
bypass the filter. -/
theorem claim_C6 (u : String) (cur : Option String) (event : Record)
    (h1 : (getField event "sessionId").truthy = true)
    (h2 : sessionMismatch (getField event "sessionId") cur = true) :
    handleOpenCodeEvent u cur event = [] := by
  simp [handleOpenCodeEvent, h1, h2]

/-- C6, witness: an event for session `other` is dropped while the current
session is `abc`. -/
theorem claim_C6_witness :
    handleOpenCodeEvent "u" (some "abc") [("sessionId", JsValue.str "other")] = [] := by
  exact claim_C6 "u" (some "abc") [("sessionId", JsValue.str "other")]
    (by decide) (by decide)

/-- C7: `waitForResponseComplete` returns immediately when no pending promise
exists; with a pending promise it completes iff the promise resolves before
`timeoutMs` and otherwise rejects with the timeout error (also when the
promise never resolves); the default timeout is 120000 ms; and the call
never mutates the pending state — the racing timer does not cancel the
underlying operation. -/
theorem claim_C7 :
    (∀ timeoutMs, waitForResponseComplete none timeoutMs = (.noPending, none)) ∧
    (∀ t timeoutMs, t < timeoutMs →
      (waitForResponseComplete (some (some t)) timeoutMs).1 = .completed) ∧
    (∀ t timeoutMs, timeoutMs ≤ t →
      (waitForResponseComplete (some (some t)) timeoutMs).1 = .timeoutError) ∧
    (∀ timeoutMs, (waitForResponseComplete (some none) timeoutMs).1 = .timeoutError) ∧
    (∀ p timeoutMs, (waitForResponseComplete p timeoutMs).2 = p) ∧
    defaultTimeoutMs = 120000 := by
  refine ⟨fun tm => rfl, fun t tm h => ?_, fun t tm h => ?_, fun tm => rfl,
    fun p tm => ?_, rfl⟩
  · simp [waitForResponseComplete, h]
  · simp [waitForResponseComplete, Nat.not_lt.2 h]
  · match p with
    | none => rfl
    | some none => rfl
    | some (some t) =>
      by_cases ht : t < tm
      · simp [waitForResponseComplete, ht]
      · simp [waitForResponseComplete, ht]

/-- C7, witness: with no pending promise the call returns immediately; an
already-resolved promise completes within the default timeout; a promise
resolving at 200000 ms exceeds the default 120000 ms timeout and rejects. -/
theorem claim_C7_witness :
    waitForResponseComplete none defaultTimeoutMs = (.noPending, none) ∧
    (waitForResponseComplete (some (some 0)) defaultTimeoutMs).1 = .completed ∧
    (waitForResponseComplete (some (some 200000)) defaultTimeoutMs).1 = .timeoutError := by
  exact ⟨claim_C7.1 defaultTimeoutMs,
    claim_C7.2.1 0 defaultTimeoutMs (by norm_num [defaultTimeoutMs]),
    claim_C7.2.2.1 200000 defaultTimeoutMs (by norm_num [defaultTimeoutMs])⟩

/-- C8, counterexample: with one listener (id 0) registered at the moment of
the call, `dispose` emits `status(stopped)` to no recipients at all — the
handler set is cleared before the final `emit`, so the message is not
delivered to the listeners registered when `dispose()` was called. -/
theorem claim_C8_counterexample :
    (dispose ⟨true, true, [0]⟩).2 = [⟨.status .stopped none, []⟩] ∧
    ¬ ((dispose ⟨true, true, [0]⟩).2 = [⟨.status .stopped none, [0]⟩]) := by
  refine ⟨rfl, fun hEq => ?_⟩
  have hval : (dispose ⟨true, true, [0]⟩).2 = [⟨.status .stopped none, []⟩] := rfl
  rw [hval] at hEq
  simp at hEq

/-- C8, amended: `dispose()` drops the push-event subscription, disconnects
the transport client, clears all listeners, and then emits one final
`status(stopped)` — which, being emitted after the clear, is delivered to no
listener; a second `dispose()` does not error and is a no-op beyond
re-emitting the (undelivered) `status(stopped)`. -/
theorem claim_C8 (s : BackendState) :
    (dispose s).1 = ⟨false, false, []⟩ ∧
    (dispose s).2 = [⟨.status .stopped none, []⟩] ∧
    dispose (dispose s).1 = (⟨false, false, []⟩, [⟨.status .stopped none, []⟩]) := by
  exact ⟨rfl, rfl, rfl⟩

/-- C9, counterexample: normalization is not a pure function of the record —
for a `tool_call` record with no `id`/`callId`, two applications draw two
fresh `crypto.randomUUID()` values (unique per call) and produce different
`callId`s. -/
theorem claim_C9_counterexample :
    processOpenCodeData "u1" [("type", JsValue.str "tool_call")] =
      some (.toolCall (.str "unknown") (.obj []) (.str "u1")) ∧
    processOpenCodeData "u2" [("type", JsValue.str "tool_call")] =
      some (.toolCall (.str "unknown") (.obj []) (.str "u2")) ∧
    ¬ (processOpenCodeData "u1" [("type", JsValue.str "tool_call")] =
        processOpenCodeData "u2" [("type", JsValue.str "tool_call")]) := by
  refine ⟨rfl, rfl, fun hEq => ?_⟩
  simp [processOpenCodeData, typeTag, getField, jsOr, JsValue.truthy] at hEq

/-- C9, amended: normalization is deterministic given the fresh-id draw, and
for every record that does not reach a fresh-id fallback — any `tool_call`
record carrying a truthy `id` or `callId`, any `permission_request` record
carrying a truthy `id`, and every record of any other type — two
applications yield identical results even with different fresh ids. -/
theorem claim_C9 (r : Record) (u1 u2 : String)
    (htc : (typeTag r = some "tool_call" ∨ typeTag r = some "tool-call") →
      ((getField r "id").truthy = true ∨ (getField r "callId").truthy = true))
    (hpr : (typeTag r = some "permission_request" ∨ typeTag r = some "permission-request") →
      (getField r "id").truthy = true) :
    processOpenCodeData u1 r = processOpenCodeData u2 r := by
  simp only [processOpenCodeData]
  by_cases h1 : typeTag r = some "text" ∨ typeTag r = some "token" ∨ typeTag r = some "content"
  · rw [if_pos h1, if_pos h1]
  rw [if_neg h1, if_neg h1]
  by_cases h2 : typeTag r = some "tool_call" ∨ typeTag r = some "tool-call"
  · rw [if_pos h2, if_pos h2, jsOr_fallback_eq _ _ u1 u2 (htc h2)]
  rw [if_neg h2, if_neg h2]
  by_cases h3 : typeTag r = some "tool_result" ∨ typeTag r = some "tool-result"
  · rw [if_pos h3, if_pos h3]
  rw [if_neg h3, if_neg h3]
  by_cases h4 : typeTag r = some "file_edit" ∨ typeTag r = some "fs-edit"
  · rw [if_pos h4, if_pos h4]
  rw [if_neg h4, if_neg h4]
  by_cases h5 : typeTag r = some "terminal" ∨ typeTag r = some "terminal-output"
  · rw [if_pos h5, if_pos h5]
  rw [if_neg h5, if_neg h5]
  by_cases h6 : typeTag r = some "permission_request" ∨ typeTag r = some "permission-request"
  · rw [if_pos h6, if_pos h6, jsOr_fallback_eq1 _ u1 u2 (hpr h6)]
  rw [if_neg h6, if_neg h6]

/-- C9, witness: a `tool_call` record that carries its own `id` normalizes
identically under two different fresh-id draws. -/
theorem claim_C9_witness :
    processOpenCodeData "u1" [("type", JsValue.str "tool_call"), ("id", JsValue.str "i1")] =
      processOpenCodeData "u2" [("type", JsValue.str "tool_call"), ("id", JsValue.str "i1")] := by
  exact claim_C9 [("type", JsValue.str "tool_call"), ("id", JsValue.str "i1")] "u1" "u2"
    (fun _ => Or.inl (by decide))
    (fun h => by rcases h with h | h <;> exact absurd h (by decide))

/-- C10: a push event whose `sessionId` is absent (`undefined`) or the empty
string bypasses the session filter entirely: handling it is exactly
normalization, so its messages can reach listeners regardless of the current
session handle. -/
theorem claim_C10 (u : String) (cur : Option String) (event : Record)
    (h : getField event "sessionId" = .undef ∨ getField event "sessionId" = .str "") :
    handleOpenCodeEvent u cur event = (processOpenCodeData u event).toList := by
  have ht : (getField event "sessionId").truthy = false := by
    rcases h with h | h <;> rw [h] <;> rfl
  simp [handleOpenCodeEvent, ht]

/-- C10, witness: an event with no `sessionId` field reaches listeners as
`model-output{x}` although the adapter's current session is `abc`. -/
theorem claim_C10_witness :
    handleOpenCodeEvent "u" (some "abc")
        [("type", JsValue.str "text"), ("content", JsValue.str "x")] =
      [.modelOutput (.str "x")] := by
  exact (claim_C10 "u" (some "abc")
    [("type", JsValue.str "text"), ("content", JsValue.str "x")] (Or.inl rfl)).trans rfl

end OpenCode
